import Mathlib

/-!
Verification of the Gigamonkey ledger core (ledger.hpp, timechain.cpp, wif.cpp)
against its natural-language specification.  The C++ data model is shallowly
embedded: machine integers become Nat/Int, `ptr<bytes>` becomes `Option bytes`,
external collaborators (hash function, proof-of-work check, Merkle library,
transaction parser, base58check) become explicit function parameters gathered
in the structure `Externs`.
-/

set_option maxHeartbeats 1000000

/-- A byte, modelled as a natural number. -/
abbrev byte := Nat

/-- A byte string (the C++ `bytes`). -/
abbrev bytes := List byte

/-- A 256-bit digest; only equality and ordering on digests are used by this
core, so it is modelled as a natural number. -/
abbrev digest256 := Nat

/-- A transaction id is a digest (ledger.hpp uses `txid`). -/
abbrev txid := digest256

/-- Amount of money (the C++ `satoshi`). -/
abbrev satoshi := Int

/-- An outpoint: reference to a previous transaction id plus output index
(`Outpoint.Reference`, `Outpoint.Index` in the source). -/
structure outpoint where
  Reference : txid
  Index : Nat
deriving DecidableEq

/-- A transaction input: outpoint, unlocking script, sequence number. -/
structure input where
  Outpoint : outpoint
  Script : bytes
  Sequence : Nat
deriving DecidableEq

/-- The default-constructed input (C++ `input{}`). -/
def input.empty : input := { Outpoint := { Reference := 0, Index := 0 }, Script := [], Sequence := 0 }

/-- A transaction output: value and locking script. -/
structure output where
  Value : satoshi
  Script : bytes
deriving DecidableEq

/-- The default-constructed output (C++ `output{}`). -/
def output.empty : output := { Value := 0, Script := [] }

/-- A parsed transaction (`Bitcoin::transaction`): version, inputs, outputs,
locktime. -/
structure transaction where
  Version : Int
  Inputs : List input
  Outputs : List output
  Locktime : Nat
deriving DecidableEq

/-- A block header (`Bitcoin::headers::header` / `bitcoin::header`): version,
previous-header digest, Merkle root, timestamp, difficulty target (bits),
nonce. -/
structure header where
  Version : Int
  Previous : digest256
  MerkleRoot : digest256
  Timestamp : Nat
  Target : Nat
  Nonce : Nat
deriving DecidableEq

/-- The default-constructed header (C++ `header{}`): all fields zero. -/
def header.empty : header := { Version := 0, Previous := 0, MerkleRoot := 0, Timestamp := 0, Target := 0, Nonce := 0 }

/-- A Merkle-tree leaf: leaf digest and leaf index (`Merkle::leaf`).
Modelled from the spec: the Merkle proof library is external; the proof
exposes a leaf digest, a leaf index, sibling digests and a root. -/
structure Merkle.leaf where
  Digest : digest256
  Index : Nat
deriving DecidableEq

/-- A Merkle branch: the leaf plus the sibling digests (`Merkle::branch`). -/
structure Merkle.branch where
  Leaf : Merkle.leaf
  Digests : List digest256
deriving DecidableEq

/-- A Merkle proof: a branch and the root it claims membership in
(`Merkle::proof`). -/
structure Merkle.proof where
  Branch : Merkle.branch
  Root : digest256
deriving DecidableEq

/-- The default-constructed Merkle proof (C++ `Merkle::proof{}`). -/
def Merkle.proof.empty : Merkle.proof := { Branch := { Leaf := { Digest := 0, Index := 0 }, Digests := [] }, Root := 0 }

/-- `Merkle::proof::index()`: the index of the leaf within the block. -/
def Merkle.proof.index (p : Merkle.proof) : Nat := p.Branch.Leaf.Index

/-- The external collaborators of the ledger core, as explicit functions:
`hash` is `Bitcoin::transaction::id` (digest of a serialization); `workValid`
is `header_valid_work` composed with the header serialization; `digestWF` is
`digest256::valid`; `proofValid` is the external `Merkle::proof::valid`;
`parseTx` is `Bitcoin::transaction::read` (`none` when unparsable, matching
the spec: lists are empty if unparsable); the `block*`/`slice*`/`headerRead`
fields are the external block-parsing and proof-of-work primitives used by
`block::valid`; `coinbase` and `txValid` are the external transaction
predicates. -/
structure Externs where
  hash : bytes → digest256
  workValid : header → Bool
  digestWF : digest256 → Bool
  proofValid : Merkle.proof → Bool
  parseTx : bytes → Option transaction
  blockHeaderSlice : bytes → bytes
  blockTxs : bytes → List bytes
  coinbase : bytes → Bool
  txValid : bytes → Bool
  merkleRootOf : List bytes → digest256
  headerRead : bytes → header
  sliceWorkValid : bytes → Bool
  headerMerkleRootField : bytes → digest256

/-- `gigamonkey::header_valid` (timechain.cpp): version at least 1, Merkle
root a well-formed digest, timestamp nonzero. -/
def header_valid (E : Externs) (h : header) : Bool :=
  decide (1 ≤ h.Version) && E.digestWF h.MerkleRoot && decide (h.Timestamp ≠ 0)

/-- `gigamonkey::bitcoin::header::valid` (timechain.cpp): proof-of-work check
on the serialization, then the structural check. -/
def header.valid (E : Externs) (h : header) : Bool :=
  E.workValid h && header_valid E h

/-- `gigamonkey::header::valid` on an 80-byte slice (timechain.cpp):
structural check of the decoded header and proof-of-work check of the
slice. -/
def header_valid_slice (E : Externs) (s : bytes) : Bool :=
  header_valid E (E.headerRead s) && E.sliceWorkValid s

/-- `ledger::double_entry`: optionally-present raw transaction bytes
(`ptr<bytes>`; `none` is the null pointer), a Merkle proof, and a header. -/
structure double_entry where
  TxBytes : Option bytes
  Proof : Merkle.proof
  Header : header
deriving DecidableEq

/-- The default-constructed record (`double_entry()`): null bytes, empty
proof, empty header. -/
def double_entry.empty : double_entry := { TxBytes := none, Proof := Merkle.proof.empty, Header := header.empty }

/-- The unconfirmed constructor `double_entry(ptr<bytes> t)`: bytes with
default proof and default header. -/
def double_entry.unconfirmed (t : Option bytes) : double_entry :=
  { TxBytes := t, Proof := Merkle.proof.empty, Header := header.empty }

/-- `double_entry::valid()`: the bytes pointer is non-null. -/
def double_entry.valid (d : double_entry) : Bool := d.TxBytes.isSome

/-- Outcome of `double_entry::id()`.  The C++ body is
`Bitcoin::transaction::id(this->operator*())`: when the bytes pointer is
null the shared pointer is dereferenced anyway, which is undefined behaviour
(modelled by `nullDeref`); no structured error is ever produced. -/
inductive IdResult where
  | ok (d : digest256) : IdResult
  | nullDeref : IdResult
deriving DecidableEq

/-- `double_entry::id()` as an explicit outcome: the digest of the raw bytes
when present, a null dereference when absent. -/
def double_entry.idResult (E : Externs) (d : double_entry) : IdResult :=
  match d.TxBytes with
  | some b => IdResult.ok (E.hash b)
  | none => IdResult.nullDeref

/-- `double_entry::confirmed()`:
`valid() && Header.valid() && id() == Proof.Branch.Leaf.Digest && Proof.valid() && Proof.Root == Header.MerkleRoot`.
The leading `valid()` conjunct short-circuits, so `id()` is only evaluated on
present bytes. -/
def double_entry.confirmed (E : Externs) (d : double_entry) : Bool :=
  match d.TxBytes with
  | none => false
  | some b =>
      header.valid E d.Header && (E.hash b == d.Proof.Branch.Leaf.Digest) &&
      E.proofValid d.Proof && (d.Proof.Root == d.Header.MerkleRoot)

/-- `double_entry::operator Bitcoin::transaction()` followed by `.Inputs`
(`double_entry::inputs()`); per the spec the list is empty when the bytes are
unparsable.  A null bytes pointer would be a null dereference in C++; the
degenerate empty list stands in for it and is never relied upon. -/
def double_entry.inputs (E : Externs) (d : double_entry) : List input :=
  match d.TxBytes with
  | none => []
  | some b =>
      match E.parseTx b with
      | none => []
      | some t => t.Inputs

/-- `double_entry::outputs()`, analogously. -/
def double_entry.outputs (E : Externs) (d : double_entry) : List output :=
  match d.TxBytes with
  | none => []
  | some b =>
      match E.parseTx b with
      | none => []
      | some t => t.Outputs

/-- `double_entry::input(uint32 i)` (ledger.hpp line 203): parse the bytes;
if the transaction is invalid or the index is out of range, return the
default input. -/
def double_entry.input (E : Externs) (d : double_entry) (i : Nat) : input :=
  match d.TxBytes with
  | none => input.empty
  | some b =>
      match E.parseTx b with
      | none => input.empty
      | some t => if h : i < t.Inputs.length then t.Inputs.get ⟨i, h⟩ else input.empty

/-- `double_entry::output(uint32 i)` (ledger.hpp line 197), analogously. -/
def double_entry.output (E : Externs) (d : double_entry) (i : Nat) : output :=
  match d.TxBytes with
  | none => output.empty
  | some b =>
      match E.parseTx b with
      | none => output.empty
      | some t => if h : i < t.Outputs.length then t.Outputs.get ⟨i, h⟩ else output.empty

/-- C1: `confirmed()` holds iff the bytes are present, the header is
individually valid, the transaction id equals the proof's leaf digest, the
proof is internally valid, and the proof's root equals the header's
Merkle-root field; consequently negating any single conjunct forces
`confirmed()` to be false. -/
theorem double_entry_confirmed_iff (E : Externs) (d : double_entry) :
    double_entry.confirmed E d = true ↔
      (double_entry.valid d = true ∧
       header.valid E d.Header = true ∧
       double_entry.idResult E d = IdResult.ok d.Proof.Branch.Leaf.Digest ∧
       E.proofValid d.Proof = true ∧
       d.Proof.Root = d.Header.MerkleRoot) := by
  cases hb : d.TxBytes with
  | none =>
      simp [double_entry.confirmed, double_entry.valid, double_entry.idResult, hb]
  | some b =>
      simp only [double_entry.confirmed, double_entry.valid, double_entry.idResult, hb,
        Option.isSome_some, Bool.and_eq_true, beq_iff_eq, true_and, IdResult.ok.injEq]
      constructor
      · rintro ⟨⟨⟨h1, h2⟩, h3⟩, h4⟩
        exact ⟨h1, h2, h3, h4⟩
      · rintro ⟨h1, h2, h3, h4⟩
        exact ⟨⟨⟨h1, h2⟩, h3⟩, h4⟩

/-- C6: a record built by the unconfirmed constructor (bytes only, default
proof and header) is never confirmed: the default header has version 0 and
timestamp 0, so the header validity conjunct fails. -/
theorem unconfirmed_never_confirmed (E : Externs) (t : Option bytes) :
    double_entry.confirmed E (double_entry.unconfirmed t) = false := by
  cases t with
  | none => simp [double_entry.unconfirmed, double_entry.confirmed]
  | some b =>
      simp [double_entry.unconfirmed, double_entry.confirmed, header.valid,
        header_valid, header.empty]

/-- C7: `double_entry::id()` on a record whose bytes pointer is null
dereferences the null pointer (undefined behaviour); it does not raise an
InvalidRecord error and in particular never produces any digest. -/
theorem id_null_bytes_is_null_deref (E : Externs) (p : Merkle.proof) (h : header) :
    double_entry.idResult E { TxBytes := none, Proof := p, Header := h } = IdResult.nullDeref := by
  rfl

/-- `data::entry<txid, double_entry>`: a key-value pair. -/
structure dataEntry where
  Key : txid
  Value : double_entry
deriving DecidableEq

/-- `data::map<txid, double_entry>`, modelled as an association list with
unique keys.  Modelled from the spec where the container library is external:
lookups of absent keys yield the invalid (default) record, matching the
spec's absence-not-exception convention. -/
abbrev TxMap := List dataEntry

/-- Whether the map already holds the key. -/
def TxMap.hasKey (m : TxMap) (k : txid) : Bool := m.any (fun e => e.Key == k)

/-- `data::map::insert`: adds the entry when the key is new. -/
def TxMap.insert (m : TxMap) (e : dataEntry) : TxMap :=
  if m.hasKey e.Key then m else e :: m

/-- `data::map::operator[]`: the value stored under the key, or the invalid
record when absent. -/
def TxMap.find (m : TxMap) (k : txid) : double_entry :=
  match m.find? (fun e => e.Key == k) with
  | some e => e.Value
  | none => double_entry.empty

/-- The keys of the map. -/
def TxMap.keys (m : TxMap) : List txid := m.map dataEntry.Key

/-- `ledger::prevout`: one input paired with the `data::entry` for the
transaction it spends from, plus the index of the input. -/
structure prevout where
  Previous : dataEntry
  Index : Nat
  Input : input
deriving DecidableEq

/-- `prevout::operator output()`: the referenced record's output at the
outpoint's index. -/
def prevout.toOutput (E : Externs) (p : prevout) : output :=
  double_entry.output E p.Previous.Value p.Input.Outpoint.Index

/-- `prevout::valid()` (ledger.hpp lines 95-99): the referenced record is
valid and the input's outpoint reference equals the entry's key; the
script-evaluation conjunct is commented out in the source. -/
def prevout.valid (p : prevout) : Bool :=
  double_entry.valid p.Previous.Value && (p.Input.Outpoint.Reference == p.Previous.Key)

/-- `ledger::vertex`: a record (the base `double_entry`) plus the dependency
map. -/
structure vertex where
  Tx : double_entry
  Previous : TxMap
deriving DecidableEq

/-- The loop body of `vertex::prevouts()`: one prevout per input, in input
order, with indices counting up from `i`. -/
def vertex.prevoutsAux (m : TxMap) (l : List input) (i : Nat) : List prevout :=
  match l with
  | [] => []
  | inp :: rest =>
      { Previous := { Key := inp.Outpoint.Reference, Value := m.find inp.Outpoint.Reference },
        Index := i, Input := inp } :: vertex.prevoutsAux m rest (i + 1)

/-- `vertex::prevouts()` (ledger.hpp lines 125-132). -/
def vertex.prevouts (E : Externs) (v : vertex) : List prevout :=
  vertex.prevoutsAux v.Previous (double_entry.inputs E v.Tx) 0

/-- `vertex::operator[]` (ledger.hpp lines 137-141): build the i-th prevout
directly from `double_entry::input(i)` and a map lookup. -/
def vertex.get (E : Externs) (v : vertex) (i : Nat) : prevout :=
  let inp := double_entry.input E v.Tx i
  { Previous := { Key := inp.Outpoint.Reference, Value := v.Previous.find inp.Outpoint.Reference },
    Index := i, Input := inp }

/-- `ledger::make_vertex` (ledger.hpp lines 144-149): fold over the inputs,
inserting the entry returned by the abstract `transaction()` lookup for each
input's outpoint reference.  `lookupTx` stands for the pure virtual
`ledger::transaction`. -/
def make_vertex (E : Externs) (lookupTx : txid → dataEntry) (d : double_entry) : vertex :=
  { Tx := d,
    Previous := (double_entry.inputs E d).foldl (fun m i => m.insert (lookupTx i.Outpoint.Reference)) [] }

/-- The sequence of ids passed to the `transaction()` lookup by the
`make_vertex` loop: the loop body calls `transaction(i.Outpoint.Reference)`
once for every element of `inputs()`, in input order. -/
def make_vertex_lookups (E : Externs) (d : double_entry) : List txid :=
  (double_entry.inputs E d).map (fun i => i.Outpoint.Reference)

/-- A base instantiation of the external collaborators, used to build
concrete scenarios. -/
def extBase : Externs :=
  { hash := fun _ => 0, workValid := fun _ => true, digestWF := fun _ => true,
    proofValid := fun _ => true, parseTx := fun _ => none,
    blockHeaderSlice := fun _ => [], blockTxs := fun _ => [], coinbase := fun _ => true,
    txValid := fun _ => true, merkleRootOf := fun _ => 0, headerRead := fun _ => header.empty,
    sliceWorkValid := fun _ => true, headerMerkleRootField := fun _ => 0 }

/-- An input whose outpoint references transaction id 5, output 0. -/
def inputRef5 : input := { Outpoint := { Reference := 5, Index := 0 }, Script := [], Sequence := 0 }

/-- A transaction with a single input referencing id 5 and no outputs. -/
def txOneInput : transaction := { Version := 1, Inputs := [inputRef5], Outputs := [], Locktime := 0 }

/-- Externals where every byte string parses to `txOneInput` and every byte
string hashes to 7. -/
def extC2 : Externs := { extBase with hash := fun _ => 7, parseTx := fun _ => some txOneInput }

/-- A dependency record holding bytes `[9]` (which hash to 7 under
`extC2`). -/
def depRecord : double_entry := { TxBytes := some [9], Proof := Merkle.proof.empty, Header := header.empty }

/-- A vertex whose record spends from id 5, with the dependency map binding
key 5 to `depRecord`. -/
def vertexC2 : vertex :=
  { Tx := { TxBytes := some [1], Proof := Merkle.proof.empty, Header := header.empty },
    Previous := [{ Key := 5, Value := depRecord }] }

/-- C2 counterexample: a SpendEdge obtained through the public vertex
indexing whose outpoint id (5) differs from the dependency record's computed
id (7, the digest of its bytes) yet whose `valid()` is true: the code
compares the outpoint id against the entry's stored key, never against the
record's digest, so the claimed equivalence with the record's own id is
false. -/
theorem prevout_valid_id_mismatch_cex :
    prevout.valid (vertex.get extC2 vertexC2 0) = true ∧
    double_entry.idResult extC2 (vertex.get extC2 vertexC2 0).Previous.Value = IdResult.ok 7 ∧
    (vertex.get extC2 vertexC2 0).Input.Outpoint.Reference = 5 ∧
    (7 : txid) ≠ 5 := by
  exact ⟨by decide, by decide, by decide, by decide⟩

/-- C2 (amended): `prevout::valid()` holds iff the referenced dependency
record is valid and the input's outpoint transaction id equals the key under
which the dependency entry is stored (`Previous.Key`); the record's computed
digest is not consulted. -/
theorem prevout_valid_iff (p : prevout) :
    prevout.valid p = true ↔
      (double_entry.valid p.Previous.Value = true ∧
       p.Input.Outpoint.Reference = p.Previous.Key) := by
  simp [prevout.valid]

/-- C10: `prevout::valid()` never inspects the referenced output: when the
dependency record is valid and the outpoint id equals the stored key,
`valid()` is true, it stays true under arbitrary changes of the edge's
`Index` field and of the outpoint's output index, and it is true even when
the conversion to an output yields the default (empty) output. -/
theorem prevout_valid_ignores_output (E : Externs) (p : prevout) (j k : Nat)
    (h1 : double_entry.valid p.Previous.Value = true)
    (h2 : p.Input.Outpoint.Reference = p.Previous.Key) :
    prevout.valid p = true ∧
    prevout.valid { p with Index := j, Input := { p.Input with Outpoint := { p.Input.Outpoint with Index := k } } } = true ∧
    (prevout.toOutput E p = output.empty → prevout.valid p = true) := by
  refine ⟨?_, ?_, fun _ => ?_⟩ <;> simp [prevout.valid, h1, h2]

/-- An edge spending output 0 of `depRecord`, which has no outputs at all. -/
def prevoutC10 : prevout := { Previous := { Key := 5, Value := depRecord }, Index := 0, Input := inputRef5 }

theorem prevout_valid_ignores_output_witness :
    prevout.toOutput extC2 prevoutC10 = output.empty ∧
    prevout.valid prevoutC10 = true ∧
    prevout.valid { prevoutC10 with Index := 3, Input := { prevoutC10.Input with Outpoint := { prevoutC10.Input.Outpoint with Index := 9 } } } = true :=
  ⟨by decide,
   (prevout_valid_ignores_output extC2 prevoutC10 3 9 (by decide) (by decide)).1,
   (prevout_valid_ignores_output extC2 prevoutC10 3 9 (by decide) (by decide)).2.1⟩

theorem vertex.prevoutsAux_length (m : TxMap) (l : List input) (i : Nat) :
    (vertex.prevoutsAux m l i).length = l.length := by
  induction l generalizing i with
  | nil => rfl
  | cons a rest ih => simp [vertex.prevoutsAux, ih]

theorem vertex.prevoutsAux_get (m : TxMap) (l : List input) (i j : Nat)
    (h : j < l.length) (h2 : j < (vertex.prevoutsAux m l i).length) :
    (vertex.prevoutsAux m l i).get ⟨j, h2⟩ =
      { Previous := { Key := (l.get ⟨j, h⟩).Outpoint.Reference,
                      Value := m.find (l.get ⟨j, h⟩).Outpoint.Reference },
        Index := i + j, Input := l.get ⟨j, h⟩ } := by
  induction l generalizing i j with
  | nil => cases h
  | cons a rest ih =>
      cases j with
      | zero => simp [vertex.prevoutsAux]
      | succ n =>
          have hn : n < rest.length := by simpa using h
          have hn2 : n < (vertex.prevoutsAux m rest (i + 1)).length := by
            simpa [vertex.prevoutsAux_length] using hn
          simp only [vertex.prevoutsAux, List.get_cons_succ]
          rw [ih (i + 1) n hn hn2]
          simp [Nat.add_assoc, Nat.add_comm 1 n]

theorem double_entry.input_eq_get (E : Externs) (d : double_entry) (i : Nat)
    (h : i < (double_entry.inputs E d).length) :
    double_entry.input E d i = (double_entry.inputs E d).get ⟨i, h⟩ := by
  cases hb : d.TxBytes with
  | none => simp [double_entry.inputs, hb] at h
  | some b =>
      cases hp : E.parseTx b with
      | none => simp [double_entry.inputs, hb, hp] at h
      | some t =>
          have hi : i < t.Inputs.length := by simpa [double_entry.inputs, hb, hp] using h
          simp [double_entry.input, double_entry.inputs, hb, hp, hi]

/-- C8: the i-th SpendEdge obtained by direct indexing (`vertex::operator[]`)
equals the i-th element of `vertex::prevouts()`: same dependency entry for
the input's outpoint id, same index, same input. -/
theorem vertex_get_eq_prevouts (E : Externs) (v : vertex) (i : Nat)
    (h : i < (vertex.prevouts E v).length) :
    vertex.get E v i = (vertex.prevouts E v).get ⟨i, h⟩ := by
  have hl : i < (double_entry.inputs E v.Tx).length := by
    simpa [vertex.prevouts, vertex.prevoutsAux_length] using h
  simp only [vertex.prevouts] at h ⊢
  rw [vertex.prevoutsAux_get v.Previous (double_entry.inputs E v.Tx) 0 i hl h]
  simp [vertex.get, double_entry.input_eq_get E v.Tx i hl]

theorem vertex_get_eq_prevouts_witness :
    vertex.get extC2 vertexC2 0 = (vertex.prevouts extC2 vertexC2).get ⟨0, by decide⟩ :=
  vertex_get_eq_prevouts extC2 vertexC2 0 (by decide)

theorem TxMap.hasKey_iff (m : TxMap) (k : txid) :
    m.hasKey k = true ↔ k ∈ m.keys := by
  simp only [TxMap.hasKey, TxMap.keys, List.any_eq_true, beq_iff_eq, List.mem_map]

theorem TxMap.keys_insert (m : TxMap) (e : dataEntry) (k : txid) :
    k ∈ (m.insert e).keys ↔ k = e.Key ∨ k ∈ m.keys := by
  by_cases h : m.hasKey e.Key = true
  · simp only [TxMap.insert, h, if_true]
    constructor
    · exact Or.inr
    · rintro (rfl | hk)
      · exact (TxMap.hasKey_iff m e.Key).1 h
      · exact hk
  · simp [TxMap.insert, h, TxMap.keys]

theorem TxMap.keys_nodup_insert (m : TxMap) (e : dataEntry)
    (h : m.keys.Nodup) : (m.insert e).keys.Nodup := by
  by_cases hk : m.hasKey e.Key = true
  · simpa [TxMap.insert, hk] using h
  · have hmem : ¬ e.Key ∈ m.keys := fun hm => hk ((TxMap.hasKey_iff m e.Key).2 hm)
    unfold TxMap.insert
    rw [if_neg hk]
    simp only [TxMap.keys, List.map_cons, List.nodup_cons]
    exact ⟨fun hc => hmem hc, h⟩

theorem make_vertex_fold_mem (lookupTx : txid → dataEntry)
    (hc : ∀ r, (lookupTx r).Key = r) (l : List input) (m : TxMap) (k : txid) :
    (k ∈ (l.foldl (fun m i => m.insert (lookupTx i.Outpoint.Reference)) m).keys) ↔
      (k ∈ m.keys ∨ k ∈ l.map (fun i => i.Outpoint.Reference)) := by
  induction l generalizing m with
  | nil => simp
  | cons a rest ih =>
      simp only [List.foldl_cons, List.map_cons, List.mem_cons]
      rw [ih, TxMap.keys_insert, hc]
      tauto

theorem make_vertex_fold_nodup (lookupTx : txid → dataEntry) (l : List input) (m : TxMap)
    (h : m.keys.Nodup) :
    (l.foldl (fun m i => m.insert (lookupTx i.Outpoint.Reference)) m).keys.Nodup := by
  induction l generalizing m with
  | nil => exact h
  | cons a rest ih => exact ih _ (TxMap.keys_nodup_insert _ _ h)

/-- C4 (amended): the `make_vertex` loop calls the abstract `transaction()`
lookup once per input, in input order (so an id shared by several inputs is
looked up several times, not once); the resulting dependency map nonetheless
has exactly one entry per distinct referenced id (its keys are duplicate-free
and a key is present iff it is referenced by some input), and an unresolved
id is present with whatever (possibly invalid) record the lookup returned
rather than being omitted.  The hypothesis is the LedgerSource contract that
a lookup returns an entry keyed by the requested id. -/
theorem make_vertex_lookup_and_map (E : Externs) (lookupTx : txid → dataEntry)
    (d : double_entry) (hc : ∀ r, (lookupTx r).Key = r) :
    (make_vertex_lookups E d).length = (double_entry.inputs E d).length ∧
    (make_vertex E lookupTx d).Previous.keys.Nodup ∧
    (∀ k, k ∈ (make_vertex E lookupTx d).Previous.keys ↔ k ∈ make_vertex_lookups E d) := by
  refine ⟨by simp [make_vertex_lookups], ?_, ?_⟩
  · exact make_vertex_fold_nodup lookupTx _ [] (by simp [TxMap.keys])
  · intro k
    simp only [make_vertex, make_vertex_lookups]
    rw [make_vertex_fold_mem lookupTx hc]
    simp [TxMap.keys]

/-- A second input referencing the same transaction id 5. -/
def inputRef5b : input := { Outpoint := { Reference := 5, Index := 1 }, Script := [], Sequence := 0 }

/-- A transaction with two inputs that share the outpoint id 5. -/
def txTwoInputsSameRef : transaction :=
  { Version := 1, Inputs := [inputRef5, inputRef5b], Outputs := [], Locktime := 0 }

/-- Externals where every byte string parses to `txTwoInputsSameRef`. -/
def extC4 : Externs := { extBase with parseTx := fun _ => some txTwoInputsSameRef }

/-- A record whose two inputs both reference id 5. -/
def recC4 : double_entry := { TxBytes := some [1], Proof := Merkle.proof.empty, Header := header.empty }

/-- A lookup answering every id with an invalid (empty) record keyed by the
requested id. -/
def lookupEmpty : txid → dataEntry := fun r => { Key := r, Value := double_entry.empty }

/-- C4 counterexample: a record with two inputs sharing outpoint id 5 makes
the `make_vertex` loop issue two `transaction()` lookups (the lookup trace is
`[5, 5]`) although there is a single distinct referenced id, so the lookup is
not performed exactly once per distinct id; the map still ends with the
single key 5. -/
theorem make_vertex_duplicate_lookup_cex :
    make_vertex_lookups extC4 recC4 = [5, 5] ∧
    (make_vertex_lookups extC4 recC4).dedup.length = 1 ∧
    (make_vertex_lookups extC4 recC4).length = 2 ∧
    (make_vertex extC4 lookupEmpty recC4).Previous.keys = [5] := by
  exact ⟨by decide, by decide, by decide, by decide⟩

theorem make_vertex_lookup_and_map_witness :
    (make_vertex_lookups extC4 recC4).length = (double_entry.inputs extC4 recC4).length ∧
    (make_vertex extC4 lookupEmpty recC4).Previous.keys.Nodup ∧
    (5 ∈ (make_vertex extC4 lookupEmpty recC4).Previous.keys ↔ 5 ∈ make_vertex_lookups extC4 recC4) :=
  ⟨(make_vertex_lookup_and_map extC4 lookupEmpty recC4 (fun _ => rfl)).1,
   (make_vertex_lookup_and_map extC4 lookupEmpty recC4 (fun _ => rfl)).2.1,
   (make_vertex_lookup_and_map extC4 lookupEmpty recC4 (fun _ => rfl)).2.2 5⟩

/-- `gigamonkey::block::valid` (timechain.cpp lines 37-44): extract the
header slice and check it; reject an empty transaction list or a first
transaction failing the coinbase predicate; reject any remaining transaction
failing the validity predicate; finally compare the header's Merkle-root
field with the recomputed Merkle root of the transaction list.  The
extraction, coinbase and validity delegates are unimplemented stubs in the
source, modelled as injected functions per the spec. -/
def block_valid (E : Externs) (b : bytes) : Bool :=
  let h := E.blockHeaderSlice b
  if !(header_valid_slice E h) then false
  else
    match E.blockTxs b with
    | [] => false
    | t0 :: rest =>
        if !(E.coinbase t0) then false
        else if !(rest.all E.txValid) then false
        else E.headerMerkleRootField h == E.merkleRootOf (t0 :: rest)

/-- C5: `block::valid` is false on a block whose transaction list is empty;
false when the first transaction fails the coinbase predicate; and false when
the recomputed Merkle root differs from the header's Merkle-root field even
when the first transaction is a coinbase and every remaining transaction
passes the validity predicate. -/
theorem block_valid_rejections (E : Externs) (b : bytes) :
    (E.blockTxs b = [] → block_valid E b = false) ∧
    (∀ t0 rest, E.blockTxs b = t0 :: rest → E.coinbase t0 = false → block_valid E b = false) ∧
    (∀ t0 rest, E.blockTxs b = t0 :: rest → E.coinbase t0 = true → rest.all E.txValid = true →
       E.headerMerkleRootField (E.blockHeaderSlice b) ≠ E.merkleRootOf (t0 :: rest) →
       block_valid E b = false) := by
  refine ⟨?_, ?_, ?_⟩
  · intro h0
    cases hh : header_valid_slice E (E.blockHeaderSlice b) <;> simp [block_valid, hh, h0]
  · intro t0 rest ht hc
    cases hh : header_valid_slice E (E.blockHeaderSlice b) <;> simp [block_valid, hh, ht, hc]
  · intro t0 rest ht hc hall hne
    cases hh : header_valid_slice E (E.blockHeaderSlice b) <;>
      simp [block_valid, hh, ht, hc, hall, hne]

/-- Externals producing an empty transaction list. -/
def ext5a : Externs := { extBase with blockTxs := fun _ => [] }

/-- Externals producing one transaction that is not a coinbase. -/
def ext5b : Externs := { extBase with blockTxs := fun _ => [[0]], coinbase := fun _ => false }

/-- Externals producing one coinbase transaction with a mismatching Merkle
root (header field 0, recomputed root 1). -/
def ext5c : Externs := { extBase with blockTxs := fun _ => [[0]], merkleRootOf := fun _ => 1 }

theorem block_valid_rejections_witness :
    block_valid ext5a [] = false ∧ block_valid ext5b [] = false ∧ block_valid ext5c [] = false :=
  ⟨(block_valid_rejections ext5a []).1 rfl,
   (block_valid_rejections ext5b []).2.1 [0] [] rfl rfl,
   (block_valid_rejections ext5c []).2.2 [0] [] rfl rfl rfl (by decide)⟩

/-- The compression marker byte appended in compressed mode
(`wif::CompressedSuffix`).  Modelled from the spec: the constant is declared
outside the visible source; the round-trip property holds for any fixed
value. -/
def CompressedSuffix : byte := 1

/-- A WIF key (wif.cpp): version byte (called the prefix there), 32-byte
secret, compression flag. -/
structure wif where
  VersionByte : byte
  Secret : bytes
  Compressed : Bool
deriving DecidableEq

/-- The default-constructed `wif{}` returned on a decoding failure. -/
def wif.empty : wif := { VersionByte := 0, Secret := List.replicate 32 0, Compressed := false }

/-- Modelled from the spec: Base58Check is an external pure serialization
converter whose only stated contract is round-trip correctness; the encoded
string is modelled by the byte payload itself. -/
def base58_check_encode (d : bytes) : bytes := d

/-- Modelled from the spec: inverse of `base58_check_encode`. -/
def base58_check_decode (s : bytes) : Option bytes := some s

/-- `wif::write` (wif.cpp lines 25-30): serialize the version byte, the
32-byte secret and, when compressed, the marker byte; then
Base58Check-encode. -/
def wif.write (vers : byte) (s : bytes) (compressed : Bool) : bytes :=
  base58_check_encode ((vers :: s) ++ (if compressed then [CompressedSuffix] else []))

/-- `wif::read` (wif.cpp lines 10-22): Base58Check-decode; read the version
byte and the 32-byte secret; if bytes remain, the next byte must equal the
compression marker (otherwise failure) and the key is compressed, otherwise
it is uncompressed.  Reader underflow (fewer than 33 payload bytes) is
modelled as a failure. -/
def wif.read (s : bytes) : wif :=
  match base58_check_decode s with
  | none => wif.empty
  | some data =>
      match data with
      | [] => wif.empty
      | p :: rest =>
          if 32 ≤ rest.length then
            match rest.drop 32 with
            | [] => { VersionByte := p, Secret := rest.take 32, Compressed := false }
            | c :: _ =>
                if c = CompressedSuffix then
                  { VersionByte := p, Secret := rest.take 32, Compressed := true }
                else wif.empty
          else wif.empty

/-- C9: encoding any version byte, 32-byte secret and compression flag with
`wif::write` and decoding the result with `wif::read` returns the original
secret and compression flag (and version byte), in both modes. -/
theorem wif_round_trip (vers : byte) (s : bytes) (compressed : Bool)
    (h : s.length = 32) :
    wif.read (wif.write vers s compressed) =
      { VersionByte := vers, Secret := s, Compressed := compressed } := by
  cases compressed with
  | false =>
      have hd : s.drop 32 = [] := by rw [← h]; exact List.drop_length s
      have ht : s.take 32 = s := by rw [← h]; exact List.take_length s
      simp [wif.read, wif.write, base58_check_encode, base58_check_decode, h, hd, ht]
  | true =>
      have hd : (s ++ [CompressedSuffix]).drop 32 = [CompressedSuffix] := by
        rw [← h]; exact List.drop_left s [CompressedSuffix]
      have ht : (s ++ [CompressedSuffix]).take 32 = s := by
        rw [← h]; exact List.take_left s [CompressedSuffix]
      simp [wif.read, wif.write, base58_check_encode, base58_check_decode, h, hd, ht]

theorem wif_round_trip_witness :
    (List.replicate 32 7).length = 32 ∧
    wif.read (wif.write 128 (List.replicate 32 7) true) =
      { VersionByte := 128, Secret := List.replicate 32 7, Compressed := true } ∧
    wif.read (wif.write 128 (List.replicate 32 7) false) =
      { VersionByte := 128, Secret := List.replicate 32 7, Compressed := false } :=
  ⟨by decide,
   wif_round_trip 128 (List.replicate 32 7) true (by decide),
   wif_round_trip 128 (List.replicate 32 7) false (by decide)⟩

/-- Modelled from the spec: the header comparison operators are declared on
the external header type (spv.hpp, outside the visible source).  The spec
requires a canonical total order on headers consistent with header equality
(records sort by block, then by position within the block); lexicographic
comparison of the header fields is such an order. -/
def header.key (h : header) : Int ×ₗ (Nat ×ₗ (Nat ×ₗ (Nat ×ₗ (Nat ×ₗ Nat)))) :=
  toLex (h.Version, toLex (h.Previous, toLex (h.MerkleRoot, toLex (h.Timestamp, toLex (h.Target, h.Nonce)))))

/-- The strict header order: lexicographic comparison of the keys. -/
def header.lt (a b : header) : Bool :=
  decide (header.key a < header.key b)

theorem header.key_inj (a b : header) (h : header.key a = header.key b) : a = b := by
  cases a; cases b
  simp only [header.key, toLex_inj, Prod.mk.injEq] at h
  obtain ⟨h1, h2, h3, h4, h5, h6⟩ := h
  simp only [header.mk.injEq]
  exact ⟨h1, h2, h3, h4, h5, h6⟩

theorem header.lt_irrefl (a : header) : header.lt a a = false := by
  simp [header.lt]

theorem header.lt_trans (a b c : header) (h1 : header.lt a b = true)
    (h2 : header.lt b c = true) : header.lt a c = true := by
  simp only [header.lt, decide_eq_true_eq] at h1 h2 ⊢
  exact h1.trans h2

theorem header.eq_of_not_lt (a b : header) (h1 : header.lt a b = false)
    (h2 : header.lt b a = false) : a = b := by
  simp only [header.lt, decide_eq_false_iff_not, not_lt] at h1 h2
  exact header.key_inj a b (le_antisymm h2 h1)

/-- `double_entry::operator==` (ledger.hpp line 168): headers equal and proof
leaf indices equal.  Header equality is structural (the header comparison
operators live on the external header type and are modelled from the spec). -/
def double_entry.eqb (a b : double_entry) : Bool :=
  decide (a.Header = b.Header) && decide (Merkle.proof.index a.Proof = Merkle.proof.index b.Proof)

/-- `double_entry::operator<` (ledger.hpp line 187): proof-index order within
equal headers, header order otherwise. -/
def double_entry.ltb (a b : double_entry) : Bool :=
  if a.Header = b.Header then decide (Merkle.proof.index a.Proof < Merkle.proof.index b.Proof)
  else header.lt a.Header b.Header

/-- C3: record equality (headers equal and proof leaf indices equal) is
reflexive, symmetric and transitive; it agrees with the relational operators
(a == b iff neither a < b nor b < a); `<` is a strict total order on
(header, proof-index) pairs: irreflexive, transitive and total up to `==`;
and when the headers differ `<` matches the header order irrespective of the
proof indices, while for equal headers it matches the proof-index order. -/
theorem double_entry_order (a b c : double_entry) :
    (double_entry.eqb a a = true) ∧
    (double_entry.eqb a b = double_entry.eqb b a) ∧
    (double_entry.eqb a b = true → double_entry.eqb b c = true → double_entry.eqb a c = true) ∧
    (double_entry.eqb a b = true ↔ (double_entry.ltb a b = false ∧ double_entry.ltb b a = false)) ∧
    (double_entry.ltb a a = false) ∧
    (double_entry.ltb a b = true → double_entry.ltb b c = true → double_entry.ltb a c = true) ∧
    (double_entry.ltb a b = true ∨ double_entry.ltb b a = true ∨ double_entry.eqb a b = true) ∧
    (a.Header ≠ b.Header → double_entry.ltb a b = header.lt a.Header b.Header) ∧
    (a.Header = b.Header →
      double_entry.ltb a b = decide (Merkle.proof.index a.Proof < Merkle.proof.index b.Proof)) := by
  refine ⟨?_, ?_, ?_, ?_, ?_, ?_, ?_, ?_, ?_⟩
  · simp [double_entry.eqb]
  · rw [Bool.eq_iff_iff]
    simp only [double_entry.eqb, Bool.and_eq_true, decide_eq_true_eq]
    constructor <;> rintro ⟨x, y⟩ <;> exact ⟨x.symm, y.symm⟩
  · simp only [double_entry.eqb, Bool.and_eq_true, decide_eq_true_eq]
    rintro ⟨x1, y1⟩ ⟨x2, y2⟩
    exact ⟨x1.trans x2, y1.trans y2⟩
  · by_cases hH : a.Header = b.Header
    · simp only [double_entry.eqb, double_entry.ltb, hH, eq_self_iff_true, if_true,
        Bool.and_eq_true, decide_eq_true_eq, decide_eq_false_iff_not, not_lt, true_and]
      omega
    · have hBA : ¬ b.Header = a.Header := fun h => hH h.symm
      simp only [double_entry.eqb, double_entry.ltb, if_neg hH, if_neg hBA,
        Bool.and_eq_true, decide_eq_true_eq]
      constructor
      · rintro ⟨hh, _⟩
        exact absurd hh hH
      · rintro ⟨h1, h2⟩
        exact absurd (header.eq_of_not_lt a.Header b.Header h1 h2) hH
  · simp [double_entry.ltb]
  · intro h1 h2
    by_cases hab : a.Header = b.Header <;> by_cases hbc : b.Header = c.Header
    · have hac : a.Header = c.Header := hab.trans hbc
      simp only [double_entry.ltb, if_pos hab, if_pos hbc, if_pos hac, decide_eq_true_eq] at h1 h2 ⊢
      omega
    · have hac : ¬ a.Header = c.Header := fun h => hbc (hab.symm.trans h)
      simp only [double_entry.ltb, if_pos hab, if_neg hbc, if_neg hac] at h1 h2 ⊢
      rw [hab]
      exact h2
    · have hac : ¬ a.Header = c.Header := fun h => hab (h.trans hbc.symm)
      simp only [double_entry.ltb, if_neg hab, if_pos hbc, if_neg hac] at h1 h2 ⊢
      rw [← hbc]
      exact h1
    · by_cases hac : a.Header = c.Header
      · exfalso
        simp only [double_entry.ltb, if_neg hab, if_neg hbc] at h1 h2
        have h2b : header.lt b.Header a.Header = true := by rw [hac]; exact h2
        have hcontra := header.lt_trans a.Header b.Header a.Header h1 h2b
        rw [header.lt_irrefl] at hcontra
        simp at hcontra
      · simp only [double_entry.ltb, if_neg hab, if_neg hbc, if_neg hac] at h1 h2 ⊢
        exact header.lt_trans a.Header b.Header c.Header h1 h2
  · by_cases hH : a.Header = b.Header
    · simp only [double_entry.ltb, double_entry.eqb, hH, eq_self_iff_true, if_true,
        Bool.and_eq_true, decide_eq_true_eq, true_and]
      omega
    · have hBA : ¬ b.Header = a.Header := fun h => hH h.symm
      simp only [double_entry.ltb, if_neg hH, if_neg hBA]
      rcases Bool.eq_false_or_eq_true (header.lt a.Header b.Header) with hab | hab
      · exact Or.inl hab
      · rcases Bool.eq_false_or_eq_true (header.lt b.Header a.Header) with hba | hba
        · exact Or.inr (Or.inl hba)
        · exact absurd (header.eq_of_not_lt a.Header b.Header hab hba) hH
  · intro hH
    simp only [double_entry.ltb, if_neg hH]
  · intro hH
    simp only [double_entry.ltb, if_pos hH]

/-- A confirmed-style record with bytes `[5]`. -/
def de1 : double_entry := { TxBytes := some [5], Proof := Merkle.proof.empty, Header := header.empty }

/-- A record with the same header and proof index as `de1` but different
bytes. -/
def de2 : double_entry := { TxBytes := some [6], Proof := Merkle.proof.empty, Header := header.empty }

/-- A null record with the same header and proof index as `de1`. -/
def de3 : double_entry := { TxBytes := none, Proof := Merkle.proof.empty, Header := header.empty }

theorem double_entry_order_witness :
    double_entry.eqb de1 de1 = true ∧
    double_entry.eqb de1 de3 = true ∧
    double_entry.ltb de1 de2 = false :=
  ⟨(double_entry_order de1 de2 de3).1,
   (double_entry_order de1 de2 de3).2.2.1 (by decide) (by decide),
   ((double_entry_order de1 de2 de3).2.2.2.1.mp (by decide)).1⟩
